import Mathlib

/-!
Verification of the mutag-calib repository against its specification.

This file gives a shallow embedding, in Lean 4, of the parts of the
repository that the specification's claims are about, and proves (or
refutes) each claim against that embedding.

Conventions used throughout:
* numeric event data (pt, eta, masses, correction factors, weights) is
  embedded as rational numbers, so that every definition is executable
  and every predicate decidable;
* external library primitives that the repository merely calls
  (correctionlib evaluators, np.log, np.sqrt, the Gaussian random draws,
  the vector library delta_r metric) are passed to the embedded
  functions as explicit function arguments: the repository's own code
  is translated literally around them;
* Python dictionaries are embedded as association lists with
  last-write-wins insertion (dictInsert / dictOfList below), and Python
  dict lookup (which raises KeyError on a missing key) as an Option
  valued lookup;
* code that can raise a Python exception is embedded as an Except
  valued function whose error carries the exception message.
-/

namespace MutagCalib

/-! ## Association-list model of Python dicts -/

/-- Lookup of a key in an association list (first binding wins; used for
lists that represent Python dicts, whose keys are unique). -/
def dlookup {α β : Type} [DecidableEq α] (l : List (α × β)) (k : α) : Option β :=
  (l.find? (fun p => p.1 = k)).map Prod.snd

/-- Insertion with overwrite, as performed by a Python dict assignment:
if the key is present its value is replaced in place, otherwise the new
binding is appended at the end. -/
def dictInsert {α β : Type} [DecidableEq α] (l : List (α × β)) (k : α) (v : β) :
    List (α × β) :=
  match l with
  | [] => [(k, v)]
  | (k1, v1) :: rest =>
    if k1 = k then (k1, v) :: rest else (k1, v1) :: dictInsert rest k v

/-- Build a Python dict from a list of bindings, later bindings
overwriting earlier ones (the semantics of a dict comprehension). -/
def dictOfList {α β : Type} [DecidableEq α] (l : List (α × β)) : List (α × β) :=
  l.foldl (fun d p => dictInsert d p.1 p.2) []

/-! ## C1: get_passfail_ratio (src/mutag_calib/scripts/create_datacards.py)

A shape histogram is the list of its per-bin yields; hist.values().sum()
is its list sum.  A datacard is abstracted to the only thing
get_passfail_ratio reads from it: the MC shape-histogram dictionary
returned by datacard.create_shape_histogram_dict(is_data=False) (a
pocket_coffea method external to this repository), keyed by process
name (for instance "b_2022_nominal").  The datacards argument is the
nested dict datacards[category][tau21] = datacard. -/

abbrev Hist := List ℚ

abbrev Datacard := List (String × Hist)

abbrev CatDatacards := List (String × List (ℚ × Datacard))

/-- Helper for pySplit: walk the character list, splitting at every
non-overlapping occurrence of the (nonempty) separator, left to right.
The fuel argument, instantiated with the length of the input, makes
the recursion structural (at least one character is consumed per
step). -/
def pySplitAux (sep : List Char) : ℕ → List Char → List Char → List (List Char)
  | 0, _, acc => [acc.reverse]
  | Nat.succ fuel, s, acc =>
    match s with
    | [] => [acc.reverse]
    | c :: rest =>
      if sep.isPrefixOf s then
        acc.reverse :: pySplitAux sep fuel (List.drop sep.length s) []
      else
        pySplitAux sep fuel rest (acc ++ [c])

/-- Python str.split(sep) for a nonempty separator: split at every
non-overlapping occurrence of sep, left to right, keeping empty
pieces. -/
def pySplit (s sep : String) : List String :=
  (pySplitAux sep.toList s.toList.length s.toList []).map (fun cs => ⟨cs⟩)

/-- process_name.split("_nominal")[0]. -/
def stripNominal (s : String) : String :=
  (pySplit s "_nominal").headD ""

/-- '-'.join(cat.split("-")[:-1]). -/
def parentOf (cat : String) : String :=
  String.intercalate "-" ((pySplit cat "-").dropLast)

/-- The per-flavor summed yields of one datacard, the dict
comprehension
\x7b p.split("_nominal")[0] : hist.values().sum() for p, hist in ... \x7d. -/
def sumwOfDatacard (d : Datacard) : List (String × ℚ) :=
  dictOfList (d.map (fun ph => (stripNominal ph.1, ph.2.sum)))

/-- sumw_percat: for every category and tau21 cut of the input, the
per-flavor summed yields of the corresponding datacard. -/
def sumw_percat (datacards : CatDatacards) : List (String × List (ℚ × List (String × ℚ))) :=
  datacards.map (fun ct => (ct.1, ct.2.map (fun td => (td.1, sumwOfDatacard td.2))))

/-- set(['-'.join(cat.split("-")[:-1]) for cat in datacards.keys()]).
A Python set iterates in unspecified order; the embedding keeps the
first-occurrence order, which does not affect the keyed result. -/
def parentCategories (datacards : CatDatacards) : List String :=
  (datacards.map (fun ct => parentOf ct.1)).dedup

/-- The flavor loop: for every flavor key of sumw_pass, divide its
value by the sumw_fail entry of the same flavor (a missing key raises
KeyError, modelled by none). -/
def passfailEntries (sumwFail sumwPass : List (String × ℚ)) :
    Option (List (String × ℚ)) :=
  sumwPass.mapM (fun fv => (dlookup sumwFail fv.1).map (fun w => (fv.1, fv.2 / w)))

/-- The body of the tau21 loop: fetch sumw_pass and sumw_fail for this
tau21 cut and run the flavor loop. -/
def passfailForTau (sPass sFail : List (ℚ × List (String × ℚ))) (tau : ℚ) :
    Option (List (String × ℚ)) := do
  let sumwPass ← dlookup sPass tau
  let sumwFail ← dlookup sFail tau
  passfailEntries sumwFail sumwPass

/-- The body of the parent-category loop: iterate over the tau21 keys
of the '<parent>-pass' entry of the datacards dict. -/
def passfailForParent (datacards : CatDatacards) (parent : String) :
    Option (List (ℚ × List (String × ℚ))) := do
  let tmPass ← dlookup datacards (parent ++ "-pass")
  let sPass ← dlookup (sumw_percat datacards) (parent ++ "-pass")
  let sFail ← dlookup (sumw_percat datacards) (parent ++ "-fail")
  (tmPass.map Prod.fst).mapM (fun tau =>
    (passfailForTau sPass sFail tau).map (fun e => (tau, e)))

/-- Embedding of get_passfail_ratio.  The result maps each parent
category, tau21 cut and flavor to the pass/fail ratio; none models the
KeyError raised when a required key is absent. -/
def get_passfail_ratio (datacards : CatDatacards) :
    Option (List (String × List (ℚ × List (String × ℚ)))) :=
  (parentCategories datacards).mapM (fun parent =>
    (passfailForParent datacards parent).map (fun r => (parent, r)))

/-! ## C8: lepton_selection_noniso (src/mutag_calib/lib/leptons.py)

The Muon branch of lepton_selection_noniso.  A muon record carries the
kinematic fields the selection reads; the configured id flag
(leptons[cuts['id']]) is embedded as the boolean field muId holding the
value of that flag for this muon. -/

structure Muon where
  pt : ℚ
  eta : ℚ
  pfRelIso04_all : ℚ
  muId : Bool
  deriving DecidableEq, Repr

structure MuonCuts where
  pt : ℚ
  eta : ℚ
  iso : ℚ
  deriving Repr

/-- Muon branch of lepton_selection_noniso: requirements on pT and eta,
then the INVERTED isolation requirement (pfRelIso04_all strictly above
the cut) and the id flag; the function returns leptons[good_leptons]. -/
def lepton_selection_noniso_muon (leptons : List Muon) (cuts : MuonCuts) : List Muon :=
  leptons.filter (fun l =>
    decide (|l.eta| < cuts.eta) && decide (l.pt > cuts.pt) &&
    decide (l.pfRelIso04_all > cuts.iso) && l.muId)

/-! ## C10: tau21 field attachment (src/mutag_calib/workflows/fatjet_base.py) -/

structure FatJet where
  pt : ℚ
  tau1 : ℚ
  tau2 : ℚ
  deriving DecidableEq, Repr

structure FatJetWithTau21 extends FatJet where
  tau21 : ℚ
  deriving DecidableEq, Repr

/-- Embedding of the tau21 entry of the fatjet_fields dictionary in
fatjetBaseProcessor.apply_object_preselection: the array
events.FatJetGood.tau2 / events.FatJetGood.tau1 is computed (an
elementwise division with the same event-by-jet shape as FatJetGood)
and attached to FatJetGood as the field tau21 via ak.with_field. -/
def attach_tau21 (fatJetGood : List (List FatJet)) : List (List FatJetWithTau21) :=
  fatJetGood.map (fun evJets =>
    evJets.map (fun j => { j with tau21 := j.tau2 / j.tau1 }))

/-! ## C7: run_deltar_matching (src/mutag_calib/lib/deltar_matching.py)

The function receives two per-event collections obj1 (N x M) and obj2
(N x G); it is fully vectorized and acts independently on every event,
so the embedding models one event: obj1 a list of M elements, obj2 a
list of G elements.  The external vector-library metric delta_r is
passed in as the function argument dR.

The source builds the N x M x G cartesian product with the dR value
attached, computes t_index = ak.argmin(obj2.dR, axis=-2) (for every
obj2 element, the index of the obj1 element at minimal dR; numpy/awkward
argmin returns the FIRST index attaining the minimum), keeps the (m, g)
pairs with m == t_index[g], and finally cuts on dR < radius. -/

/-- Index of the first occurrence of the minimum of a list (the
semantics of ak.argmin along the M axis); none on the empty list. -/
def argminIdx : List ℚ → Option ℕ
  | [] => none
  | x :: xs =>
    match argminIdx xs with
    | none => some 0
    | some j => if x ≤ xs.getD j 0 then some 0 else some (j + 1)

/-- The selection the source applies to the pair (obj1[m], b):
m is the argmin of the dR column of b, and dR(obj1[m], b) < radius. -/
def keepPair {α β : Type} (dR : α → β → ℚ) (obj1 : List α) (radius : ℚ)
    (m : ℕ) (a : α) (b : β) : Bool :=
  (argminIdx (obj1.map (fun a1 => dR a1 b)) == some m) && decide (dR a b < radius)

/-- Embedding of run_deltar_matching for one event: the output is an
M-entry list whose m-th entry holds the retained obj2 elements assigned
to obj1[m], each with its dR value attached (the source returns the
obj2 records with the extra dR field). -/
def run_deltar_matching {α β : Type} (dR : α → β → ℚ) (obj1 : List α) (obj2 : List β)
    (radius : ℚ) : List (List (β × ℚ)) :=
  obj1.enum.map (fun ma =>
    (obj2.filter (fun b => keepPair dR obj1 radius ma.1 ma.2 b)).map
      (fun b => (b, dR ma.2 b)))

/-- Concrete delta-R table used to witness the matching theorem:
distances from the two elements of obj1 to the single element of obj2. -/
def dRex : ℕ → ℕ → ℚ :=
  fun a _ => if a = 1 then 7 else 4

/-! ## C9: get_sv1mass (src/mutag_calib/lib/sv.py)

The input sv is the matched-SV collection with the same shape as
FatJetGood (events x fatjets x SVs); only its mass field matters here,
so the embedding takes the three-level list of SV masses.  np.log is an
external primitive and is passed in as logFn.

The source computes
  sv1mass = ak.firsts(sv.mass, axis=-1)[:, 0]   (None if the leading
            fat jet has no matched SV; IndexError if an event has no
            fat jet, which upstream selection excludes)
  sv1mass = ak.where(ak.is_none(sv1mass), 0, sv1mass)
and, when log=True,
  logsv1mass = np.where(sv1mass == 0, -5, np.log(sv1mass)).
The embedding returns none when some event has no fat jet (the
IndexError case), and otherwise the pair (sv1mass, logsv1mass), the
second component present exactly when log=True. -/

/-- Per-event value of ak.firsts(sv.mass, axis=-1)[:, 0]: the leading
fat jet's first SV mass (inner none when the leading fat jet has no SV;
outer none when the event has no fat jet at all). -/
def sv1massOfEvent (e : List (List ℚ)) : Option (Option ℚ) :=
  (e.map List.head?).head?

/-- Embedding of get_sv1mass. -/
def get_sv1mass (logFn : ℚ → ℚ) (sv_mass : List (List (List ℚ))) (log : Bool) :
    Option (List ℚ × Option (List ℚ)) := do
  let firsts ← sv_mass.mapM sv1massOfEvent
  let sv1mass := firsts.map (fun o => o.getD 0)
  pure (sv1mass,
    if log then some (sv1mass.map (fun m => if m = 0 then -5 else logFn m)) else none)

/-! ## C2: jet_correction_correctionlib
(src/mutag_calib/configs/fatjet_base/custom/jets.py)

The function is vectorized over one chunk of events; rho is the
per-event fixedGridRhoFastjetAll, broadcast to every jet, so one event
is modelled: a list of jets, the event's gen-jet collection, and the
flat list of Gaussian draws produced by np.random.normal (one per jet,
passed in as data since the embedding does not model the RNG).  The
external correctionlib evaluators and np.sqrt are passed in as
functions: corrEval models the compound <JECversion>_L1L2L3Res_<typeJet>
evaluator on (area, eta, pt_raw, rho); sfEval the
<JERversion>_ScaleFactor evaluator on eta (at the 'nom' systematic);
resEval the <JERversion>_PtResolution evaluator on (eta, pt, rho).
The applyJER flag models whether a JERversion is given. -/

structure JetIn where
  pt : ℚ
  mass : ℚ
  eta : ℚ
  phi : ℚ
  area : ℚ
  rawFactor : ℚ
  genJetIdx : Int
  deriving DecidableEq, Repr

structure GenJet where
  pt : ℚ
  eta : ℚ
  phi : ℚ
  deriving DecidableEq, Repr

/-- Default jet used by List.getD. -/
def jet0 : JetIn :=
  { pt := 0, mass := 0, eta := 0, phi := 0, area := 0, rawFactor := 0, genJetIdx := -1 }

/-- awkward-array integer indexing: a negative index counts from the
end; an index out of range (after wrap-around) is an error (none). -/
def listAt {α : Type} (l : List α) (i : Int) : Option α :=
  let k : Int := if i < 0 then (l.length : Int) + i else i
  if h : 0 ≤ k ∧ k < (l.length : Int) then
    some (l.get ⟨k.toNat, by omega⟩)
  else
    none

/-- JES: pt_raw = (1 - rawFactor) * pt, mass_raw = (1 - rawFactor) * mass,
corrFactor = corr.evaluate(area, eta, pt_raw, rho), and the corrected
jet carries pt_raw * corrFactor and mass_raw * corrFactor. -/
def correctJet (corrEval : ℚ → ℚ → ℚ → ℚ → ℚ) (rho : ℚ) (j : JetIn) : JetIn :=
  let pt_raw := (1 - j.rawFactor) * j.pt
  let mass_raw := (1 - j.rawFactor) * j.mass
  let c := corrEval j.area j.eta pt_raw rho
  { j with pt := pt_raw * c, mass := mass_raw * c }

/-- The NanoAOD gen-jet association used by the source: the index is
kept when genJetIdx < len(genjets) and genJetIdx != -1 (ak.mask), and
the kept index selects into the gen-jet collection. -/
def matchedGen (gens : List GenJet) (j : JetIn) : Option GenJet :=
  if j.genJetIdx < (gens.length : Int) ∧ j.genJetIdx ≠ -1 then
    listAt gens j.genJetIdx
  else
    none

/-- JER smear factor of one corrected jet jc with Gaussian draw g:
the scaling (deterministic) method if the jet has an associated gen
jet with |pt - pt_gen| < 3 * ptResolution * pt, the stochastic method
otherwise.  Note that the source computes dr_min but applies no
delta-R requirement in this path. -/
def jerSmearFactor (sfEval : ℚ → ℚ) (resEval : ℚ → ℚ → ℚ → ℚ) (sqrtFn : ℚ → ℚ)
    (rho : ℚ) (gens : List GenJet) (jc : JetIn) (g : ℚ) : ℚ :=
  match (matchedGen gens jc).bind (fun gj =>
      if |jc.pt - gj.pt| < 3 * resEval jc.eta jc.pt rho * jc.pt then
        some gj
      else
        none) with
  | some gj => 1 + (sfEval jc.eta - 1) * (jc.pt - gj.pt) / jc.pt
  | none =>
    1 + g * sqrtFn
      (if sfEval jc.eta ^ 2 - 1 > 0 then sfEval jc.eta ^ 2 - 1 else 0)

/-- Embedding of jet_correction_correctionlib for one event: apply the
JES correction to every jet and, when a JERversion is given
(applyJER), multiply pt and mass of every jet by its smear factor. -/
def jet_correction_correctionlib (corrEval : ℚ → ℚ → ℚ → ℚ → ℚ) (sfEval : ℚ → ℚ)
    (resEval : ℚ → ℚ → ℚ → ℚ) (sqrtFn : ℚ → ℚ) (rho : ℚ) (gens : List GenJet)
    (draws : List ℚ) (jets : List JetIn) (applyJER : Bool) : List JetIn :=
  let corrected := jets.map (correctJet corrEval rho)
  if applyJER then
    (corrected.zip draws).map (fun jg =>
      let s := jerSmearFactor sfEval resEval sqrtFn rho gens jg.1 jg.2
      { jg.1 with pt := jg.1.pt * s, mass := jg.1.mass * s })
  else
    corrected

/-- Squared delta R between a jet and a gen jet (delta_r < r is
equivalent to delta_r squared < r squared, both sides nonnegative). -/
def deltaRsq (j : JetIn) (gj : GenJet) : ℚ :=
  (j.eta - gj.eta) ^ 2 + (j.phi - gj.phi) ^ 2

/-- The smear factor C2 claims: deterministic when the jet is matched
to a gen jet within BOTH the delta-R requirement (dR < drMin) and the
3-sigma ptResolution requirement, stochastic otherwise. -/
def claimSmearFactor (sfEval : ℚ → ℚ) (resEval : ℚ → ℚ → ℚ → ℚ) (sqrtFn : ℚ → ℚ)
    (drMin rho : ℚ) (gens : List GenJet) (jc : JetIn) (g : ℚ) : ℚ :=
  match (matchedGen gens jc).bind (fun gj =>
      if deltaRsq jc gj < drMin ^ 2 ∧
          |jc.pt - gj.pt| < 3 * resEval jc.eta jc.pt rho * jc.pt then
        some gj
      else
        none) with
  | some gj => 1 + (sfEval jc.eta - 1) * (jc.pt - gj.pt) / jc.pt
  | none => 1 + g * sqrtFn (max (sfEval jc.eta ^ 2 - 1) 0)

/-- C2 as stated by the spec: every corrected jet's pt is
(1 - rawFactor) * pt * corrFactor, and with a JERversion the pt is
further multiplied by the deterministic factor when the jet is matched
within the delta-R and 3-sigma requirements and by the stochastic
factor when it is not. -/
def claimC2 : Prop :=
  ∀ (corrEval : ℚ → ℚ → ℚ → ℚ → ℚ) (sfEval : ℚ → ℚ) (resEval : ℚ → ℚ → ℚ → ℚ)
    (sqrtFn : ℚ → ℚ) (drMin rho : ℚ) (gens : List GenJet) (draws : List ℚ)
    (jets : List JetIn) (i : ℕ), i < jets.length → draws.length = jets.length →
    (∀ j, j ∈ jets → -1 ≤ j.genJetIdx) →
    ((jet_correction_correctionlib corrEval sfEval resEval sqrtFn rho gens draws
        jets true).getD i jet0).pt =
      (correctJet corrEval rho (jets.getD i jet0)).pt *
        claimSmearFactor sfEval resEval sqrtFn drMin rho gens
          (correctJet corrEval rho (jets.getD i jet0)) (draws.getD i 0)

/-- Concrete jet matched by gen-jet index to genEx (genJetIdx 0). -/
def jetA : JetIn :=
  { pt := 100, mass := 100, eta := 0, phi := 0, area := 1, rawFactor := 0, genJetIdx := 0 }

/-- Concrete jet with no gen-jet association (genJetIdx -1). -/
def jetB : JetIn :=
  { pt := 100, mass := 100, eta := 0, phi := 0, area := 1, rawFactor := 0, genJetIdx := -1 }

/-- Concrete gen jet: same pt window as jetA (deltaPt 50 within 3
sigma) but at delta R = 2 from it (far outside the 0.4 cone). -/
def genEx : GenJet :=
  { pt := 50, eta := 2, phi := 0 }

/-! ## C5/C6: sf_trigger_prescale
(src/mutag_calib/configs/fatjet_base/custom/scale_factors.py)

An event carries its run number, its luminosity block and the HLT flag
of each trigger path.  The two external correctionlib pieces are passed
in as arguments: fileExists models os.path.isfile on the per-trigger
prescale JSON path for the fixed year, and pseval models
pseval["prescaleWeight"].evaluate for the file of a given trigger
(applied to the run, the "HLT_"-prefixed path name, and the luminosity
block cast to float). -/

structure PSEvent where
  run : ℕ
  luminosityBlock : ℕ
  hlt : String → Bool

/-- The four BTagMu triggers of the trigbools dictionary, in insertion
order (Python dicts iterate in insertion order). -/
def btagmu_triggers : List String :=
  ["BTagMu_AK8DiJet170_Mu5", "BTagMu_AK8Jet300_Mu5",
   "BTagMu_AK8Jet170_DoubleMu5", "BTagMu_AK4Jet300_Mu5"]

/-- One event's weight update for one trigger:
psweight = ak.where(trigbool, thispsweight, psweight). -/
def psUpdate (pseval : String → ℕ → String → ℚ → ℚ) (t : String) (ev : PSEvent)
    (w : ℚ) : ℚ :=
  if ev.hlt t then pseval t ev.run ("HLT_" ++ t) (ev.luminosityBlock : ℚ) else w

/-- One iteration of the trigger loop: check that the prescale JSON
file exists (raising NotImplementedError otherwise), then update the
per-event weights. -/
def psStep (year : String) (fileExists : String → Bool)
    (pseval : String → ℕ → String → ℚ → ℚ) (events : List PSEvent)
    (weights : List ℚ) (t : String) : Except String (List ℚ) :=
  if fileExists t then
    .ok (List.zipWith (psUpdate pseval t) events weights)
  else
    .error ("Prescale weights not available for " ++ t ++ " in " ++ year ++
      ". Please run `scripts/dump_prescale.py`.")

/-- Embedding of sf_trigger_prescale: raise for MC, otherwise start
from all-ones weights and fold the trigger loop over the four BTagMu
triggers. -/
def sf_trigger_prescale (year : String) (fileExists : String → Bool)
    (pseval : String → ℕ → String → ℚ → ℚ) (events : List PSEvent) (isMC : Bool) :
    Except String (List ℚ) :=
  if isMC then .error "Prescale weights are applicable only to data."
  else btagmu_triggers.foldlM (psStep year fileExists pseval events)
    (events.map (fun _ => (1 : ℚ)))

/-- The pure weight fold performed when every prescale file exists. -/
def psFold (pseval : String → ℕ → String → ℚ → ℚ) (events : List PSEvent)
    (ts : List String) (w0 : List ℚ) : List ℚ :=
  ts.foldl (fun w t => List.zipWith (psUpdate pseval t) events w) w0

/-! ## C4/C5: fit_diagnostics, extract_fit_results, run_combine_cards
(src/mutag_calib/scripts/)

The scripts shell out to external binaries; an invocation is modelled
by the return code the spawned process exits with.  File writes are
modelled by returning the list of (filename, record) pairs written. -/

/-- The fields of the status dictionary dumped to fit_status.json that
identify the invocation (the timestamp and the two derived ROOT file
names are elided). -/
structure FitStatus where
  category : String
  cwd : String
  command : String
  returncode : Int
  deriving DecidableEq, Repr

/-- The combine command line assembled by fit_diagnostics.py (comments
and commented-out flags omitted, as in the source). -/
def combine_fitdiag_cmd (fit_name : String) : List String :=
  ["combine", "-M", "FitDiagnostics", "-d", "workspace.root",
   "--name", fit_name, "--cminDefaultMinimizerStrategy", "1",
   "--saveWorkspace", "--saveShapes", "--saveWithUncertainties",
   "--saveOverallShapes", "--redefineSignalPOIs", "r,SF_c,SF_light",
   "--setParameters", "SF_light=1", "--freezeParameters", "SF_light",
   "--rMin", "0", "--rMax", "10"]

/-- Embedding of the fit_diagnostics.py script body: raise when
workspace.root is absent, otherwise run combine via subprocess.run
WITHOUT check (a non-zero exit does not raise; rc is the return code
of the spawned process) and unconditionally dump the status record to
fit_status.json.  The category argument stands for the basename of the
parent of the working directory, from which the script derives it. -/
def fit_diagnostics (workspaceExists : Bool) (category cwd : String) (rc : Int) :
    Except String (List (String × FitStatus)) :=
  if workspaceExists = false then
    .error "workspace.root not found in current directory"
  else
    .ok [("fit_status.json",
      { category := category, cwd := cwd,
        command := String.intercalate " " (combine_fitdiag_cmd ("." ++ category)),
        returncode := rc })]

/-- Embedding of the input checks and POI extraction of
extract_fit_results.py: raise unless the glob for fitDiagnostics ROOT
files returns exactly one file, then raise if fit_s is absent from it,
otherwise proceed (the extracted row is abstracted to the file name). -/
def extract_fit_results (fitFiles : List String) (fitSPresent : Bool) :
    Except String String :=
  if fitFiles.length ≠ 1 then
    .error ("Found " ++ toString fitFiles.length ++ " fitDiagnostics files: " ++
      String.intercalate ", " fitFiles)
  else if fitSPresent = false then
    .error "fit_s not found in ROOT file"
  else
    .ok (fitFiles.getD 0 "")

/-- Embedding of subprocess.run(cmd, check=True): a non-zero return
code raises CalledProcessError. -/
def subprocess_run_check (rc : Int) : Except String Unit :=
  if rc ≠ 0 then
    .error ("Command returned non-zero exit status " ++ toString rc)
  else
    .ok ()

/-- Embedding of one iteration of the run_combine_cards.py main loop:
subprocess.run(["bash", "combine_cards.sh"], cwd=cut_path, check=True).
The script writes no status file, so a successful invocation returns an
empty list of written (filename, record) pairs. -/
def run_combine_cards_invoke (rc : Int) : Except String (List (String × FitStatus)) :=
  (subprocess_run_check rc).map (fun _ => [])

/-- C4 as stated by the spec, applied to the run_combine_cards
invocation site: a non-zero exit code of the external fitting binary
does not raise, and the return code is recorded in a JSON status file. -/
def claimC4 : Prop :=
  ∀ rc : Int, ∃ files : List (String × FitStatus),
    run_combine_cards_invoke rc = .ok files ∧
      ∃ p, p ∈ files ∧ p.2.returncode = rc

/-! ## C3: per-item failure handling in create_datacards.main
(src/mutag_calib/scripts/create_datacards.py, lines 394-418)

The loop over categories and tau21 cuts calls datacard.dump inside
try/except: a success appends to successful_categories, a failure is
caught, its message recorded in failed_categories, and the loop
CONTINUES with the remaining items.  The dump call is modelled as an
Except-valued function on the loop item. -/

/-- Embedding of the datacard dump loop of create_datacards.main. -/
def dump_loop {ι : Type} (dump : ι → Except String Unit) (items : List ι) :
    List ι × List (ι × String) :=
  items.foldl
    (fun acc it =>
      match dump it with
      | .ok _ => (acc.1 ++ [it], acc.2)
      | .error e => (acc.1, acc.2 ++ [(it, e)]))
    ([], [])

/-- C3 as stated by the spec, applied to the datacard dump loop: a
failure terminates the enclosing script, so no item after a failing
item is processed (it ends up neither among the successes nor among
the recorded failures). -/
def claimC3 : Prop :=
  ∀ (ι : Type) (dump : ι → Except String Unit) (items : List ι) (i j : ℕ)
    (hi : i < items.length) (hj : j < items.length), i < j →
    (∃ e, dump (items.get ⟨i, hi⟩) = .error e) →
    items.get ⟨j, hj⟩ ∉ (dump_loop dump items).1 ∧
      items.get ⟨j, hj⟩ ∉ (dump_loop dump items).2.map Prod.fst

/-- Concrete data event that fires none of the four BTagMu triggers. -/
def psEv0 : PSEvent :=
  { run := 100, luminosityBlock := 7, hlt := fun _ => false }

/-- Concrete data event that fires exactly the BTagMu_AK8Jet300_Mu5
trigger. -/
def psEv1 : PSEvent :=
  { run := 100, luminosityBlock := 8, hlt := fun t => t == "BTagMu_AK8Jet300_Mu5" }

end MutagCalib

namespace MutagCalib

/-! ## Helper lemmas -/

theorem argminIdx_eq_none_iff (l : List ℚ) : argminIdx l = none ↔ l = [] := by
  cases l with
  | nil => simp [argminIdx]
  | cons x xs =>
    simp only [argminIdx]
    cases hxs : argminIdx xs with
    | none => simp
    | some j => simp only []; split <;> simp

theorem argminIdx_lt_length {l : List ℚ} {j : ℕ} (h : argminIdx l = some j) :
    j < l.length := by
  induction l generalizing j with
  | nil => simp [argminIdx] at h
  | cons x xs ih =>
    cases hxs : argminIdx xs with
    | none =>
      simp only [argminIdx, hxs, Option.some.injEq] at h
      subst h
      simp
    | some k =>
      simp only [argminIdx, hxs] at h
      split at h <;> simp only [Option.some.injEq] at h <;> subst h
      · simp
      · have := ih hxs
        simp only [List.length_cons]
        omega

theorem argminIdx_min {l : List ℚ} {j : ℕ} (h : argminIdx l = some j) :
    ∀ i, i < l.length → l.getD j 0 ≤ l.getD i 0 := by
  induction l generalizing j with
  | nil => simp [argminIdx] at h
  | cons x xs ih =>
    intro i hi
    cases hxs : argminIdx xs with
    | none =>
      have hnil : xs = [] := (argminIdx_eq_none_iff xs).mp hxs
      subst hnil
      simp only [argminIdx, Option.some.injEq] at h
      subst h
      have hi0 : i = 0 := by
        simp only [List.length_cons, List.length_nil] at hi
        omega
      subst hi0
      simp
    | some k =>
      simp only [argminIdx, hxs] at h
      split at h <;> simp only [Option.some.injEq] at h <;> subst h
      · -- the head x is a minimum of the whole list
        rename_i hxle
        cases i with
        | zero => simp
        | succ i1 =>
          have hi1 : i1 < xs.length := by
            simp only [List.length_cons] at hi
            omega
          have h2 := ih hxs i1 hi1
          simp only [List.getD_cons_zero, List.getD_cons_succ]
          exact le_trans hxle h2
      · -- the minimum of the tail is strictly below the head x
        rename_i hxgt
        push_neg at hxgt
        cases i with
        | zero =>
          simp only [List.getD_cons_succ, List.getD_cons_zero]
          exact le_of_lt hxgt
        | succ i1 =>
          have hi1 : i1 < xs.length := by
            simp only [List.length_cons] at hi
            omega
          simp only [List.getD_cons_succ]
          exact ih hxs i1 hi1

/-- Characterization of membership in the m-th row of the output of
run_deltar_matching. -/
theorem mem_run_deltar_matching {α β : Type} (dR : α → β → ℚ) (obj1 : List α)
    (obj2 : List β) (radius : ℚ) (m : Fin obj1.length) (b : β) (d : ℚ) :
    (b, d) ∈ (run_deltar_matching dR obj1 obj2 radius).getD m.1 [] ↔
      b ∈ obj2 ∧ keepPair dR obj1 radius m.1 (obj1.get m) b = true ∧
        d = dR (obj1.get m) b := by
  have hm : m.1 < obj1.enum.length := by simp only [List.enum_length]; exact m.2
  have hrow : (run_deltar_matching dR obj1 obj2 radius).getD m.1 [] =
      (obj2.filter (fun b => keepPair dR obj1 radius m.1 (obj1.get m) b)).map
        (fun b => (b, dR (obj1.get m) b)) := by
    unfold run_deltar_matching
    rw [List.getD_eq_getElem?_getD, List.getElem?_map]
    rw [List.getElem?_eq_getElem hm]
    simp [List.getElem_enum, List.get_eq_getElem]
  rw [hrow]
  constructor
  · intro hmem
    rcases List.mem_map.mp hmem with ⟨b1, hb1, heq⟩
    rcases List.mem_filter.mp hb1 with ⟨hb1mem, hb1keep⟩
    have hb : b1 = b := congrArg Prod.fst heq
    subst hb
    exact ⟨hb1mem, hb1keep, (congrArg Prod.snd heq).symm⟩
  · rintro ⟨hbmem, hkeep, hd⟩
    subst hd
    exact List.mem_map.mpr ⟨b, List.mem_filter.mpr ⟨hbmem, hkeep⟩, rfl⟩

theorem getD_map_eq {α : Type} (l : List α) (f : α → ℚ) (i : ℕ) (hi : i < l.length) :
    (l.map f).getD i 0 = f (l.get ⟨i, hi⟩) := by
  rw [List.getD_eq_getElem?_getD, List.getElem?_map, List.getElem?_eq_getElem hi]
  simp

theorem mapM_option_eq {α β : Type} (f : α → Option β) (l : List α) (r : List β)
    (d : β) (h : l.mapM f = some r) :
    r.length = l.length ∧
      ∀ i (hi : i < l.length), f (l.get ⟨i, hi⟩) = some (r.getD i d) := by
  induction l generalizing r with
  | nil =>
    simp only [List.mapM_nil, pure, Option.some.injEq] at h
    subst h
    simp
  | cons x xs ih =>
    rw [List.mapM_cons] at h
    cases hx : f x with
    | none => rw [hx] at h; simp at h
    | some y =>
      rw [hx] at h
      cases hxs : xs.mapM f with
      | none => rw [hxs] at h; simp at h
      | some ys =>
        rw [hxs] at h
        simp only [Option.bind_eq_bind, Option.some_bind, pure, Option.some.injEq] at h
        subst h
        rcases ih ys hxs with ⟨hlen, hget⟩
        refine ⟨by simp [hlen], ?_⟩
        intro i hi
        cases i with
        | zero => simpa using hx
        | succ i1 =>
          have hi1 : i1 < xs.length := by
            simp only [List.length_cons] at hi
            omega
          simpa using hget i1 hi1

theorem getD_eq_get {α : Type} (l : List α) (i : ℕ) (d : α) (hi : i < l.length) :
    l.getD i d = l.get ⟨i, hi⟩ := by
  rw [List.getD_eq_getElem?_getD, List.getElem?_eq_getElem hi]
  rfl

theorem getD_zipWith {α : Type} (f : α → ℚ → ℚ) (l : List α) (w : List ℚ)
    (hw : w.length = l.length) (i : ℕ) (hi : i < l.length) :
    (List.zipWith f l w).getD i 0 = f (l.get ⟨i, hi⟩) (w.getD i 0) := by
  induction l generalizing w i with
  | nil => simp at hi
  | cons x xs ih =>
    cases w with
    | nil => simp at hw
    | cons y ys =>
      cases i with
      | zero => simp
      | succ i1 =>
        have hw1 : ys.length = xs.length := by
          simp only [List.length_cons] at hw
          omega
        have hi1 : i1 < xs.length := by
          simp only [List.length_cons] at hi
          omega
        simpa using ih ys hw1 i1 hi1

theorem psFold_length (pseval : String → ℕ → String → ℚ → ℚ) (events : List PSEvent)
    (ts : List String) (w0 : List ℚ) (hw : w0.length = events.length) :
    (psFold pseval events ts w0).length = events.length := by
  induction ts generalizing w0 with
  | nil => simpa [psFold] using hw
  | cons t ts ih =>
    unfold psFold
    rw [List.foldl_cons]
    exact ih (List.zipWith (psUpdate pseval t) events w0) (by simp [hw])

theorem foldlM_psStep_ok (year : String) (fileExists : String → Bool)
    (pseval : String → ℕ → String → ℚ → ℚ) (events : List PSEvent)
    (ts : List String) (hex : ∀ t, t ∈ ts → fileExists t = true) (w0 : List ℚ) :
    ts.foldlM (psStep year fileExists pseval events) w0 =
      .ok (psFold pseval events ts w0) := by
  induction ts generalizing w0 with
  | nil => rfl
  | cons t ts ih =>
    rw [List.foldlM_cons]
    have hft : fileExists t = true := hex t (List.mem_cons_self t ts)
    rw [psStep, if_pos hft]
    have hex2 : ∀ t1, t1 ∈ ts → fileExists t1 = true :=
      fun t1 ht1 => hex t1 (List.mem_cons_of_mem t ht1)
    exact ih hex2 (List.zipWith (psUpdate pseval t) events w0)

theorem foldlM_psStep_error (year : String) (fileExists : String → Bool)
    (pseval : String → ℕ → String → ℚ → ℚ) (events : List PSEvent)
    (ts : List String) (hmiss : ∃ t, t ∈ ts ∧ fileExists t = false) (w0 : List ℚ) :
    ∃ t, t ∈ ts ∧ fileExists t = false ∧
      ts.foldlM (psStep year fileExists pseval events) w0 =
        .error ("Prescale weights not available for " ++ t ++ " in " ++ year ++
          ". Please run `scripts/dump_prescale.py`.") := by
  induction ts generalizing w0 with
  | nil => rcases hmiss with ⟨t, ht, _⟩; simp at ht
  | cons t ts ih =>
    by_cases hft : fileExists t = true
    · have hmiss2 : ∃ t1, t1 ∈ ts ∧ fileExists t1 = false := by
        rcases hmiss with ⟨t1, ht1, hf1⟩
        rcases List.mem_cons.mp ht1 with h1 | h1
        · rw [h1] at hf1; rw [hft] at hf1; simp at hf1
        · exact ⟨t1, h1, hf1⟩
      rcases ih hmiss2 (List.zipWith (psUpdate pseval t) events w0) with
        ⟨t1, ht1, hf1, heq⟩
      refine ⟨t1, List.mem_cons_of_mem t ht1, hf1, ?_⟩
      rw [List.foldlM_cons, psStep, if_pos hft]
      exact heq
    · have hff : fileExists t = false := by
        cases hfe : fileExists t with
        | false => rfl
        | true => rw [hfe] at hft; simp at hft
      refine ⟨t, List.mem_cons_self t ts, hff, ?_⟩
      rw [List.foldlM_cons, psStep, if_neg (by simp [hff])]
      rfl

theorem psFold_getD (pseval : String → ℕ → String → ℚ → ℚ) (events : List PSEvent)
    (i : ℕ) (hi : i < events.length) (ts : List String) (w0 : List ℚ)
    (hw : w0.length = events.length) :
    ((∀ t, t ∈ ts → (events.get ⟨i, hi⟩).hlt t = false) →
      (psFold pseval events ts w0).getD i 0 = w0.getD i 0)
    ∧ ((∃ t, t ∈ ts ∧ (events.get ⟨i, hi⟩).hlt t = true) →
      ∃ t, t ∈ ts ∧ (events.get ⟨i, hi⟩).hlt t = true ∧
        (psFold pseval events ts w0).getD i 0 =
          pseval t (events.get ⟨i, hi⟩).run ("HLT_" ++ t)
            ((events.get ⟨i, hi⟩).luminosityBlock : ℚ)) := by
  induction ts generalizing w0 with
  | nil =>
    refine ⟨fun _ => by simp [psFold], ?_⟩
    rintro ⟨t, ht, _⟩
    simp at ht
  | cons t ts ih =>
    have hw1 : (List.zipWith (psUpdate pseval t) events w0).length = events.length := by
      simp [hw]
    have hfold : psFold pseval events (t :: ts) w0 =
        psFold pseval events ts (List.zipWith (psUpdate pseval t) events w0) := by
      unfold psFold
      rw [List.foldl_cons]
    have hzip := getD_zipWith (psUpdate pseval t) events w0 hw i hi
    constructor
    · intro hall
      rw [hfold, (ih _ hw1).1 (fun t1 ht1 => hall t1 (List.mem_cons_of_mem t ht1)), hzip,
        psUpdate, if_neg (by rw [hall t (List.mem_cons_self t ts)]; simp)]
    · intro hsome
      by_cases hts : ∃ t1, t1 ∈ ts ∧ (events.get ⟨i, hi⟩).hlt t1 = true
      · rcases (ih _ hw1).2 hts with ⟨t1, ht1, hfired, heq⟩
        exact ⟨t1, List.mem_cons_of_mem t ht1, hfired, by rw [hfold]; exact heq⟩
      · have hallts : ∀ t1, t1 ∈ ts → (events.get ⟨i, hi⟩).hlt t1 = false := by
          intro t1 ht1
          cases hfe : (events.get ⟨i, hi⟩).hlt t1 with
          | false => rfl
          | true => exact absurd ⟨t1, ht1, hfe⟩ hts
        have hfiredt : (events.get ⟨i, hi⟩).hlt t = true := by
          rcases hsome with ⟨t1, ht1, hf1⟩
          rcases List.mem_cons.mp ht1 with h1 | h1
          · rwa [h1] at hf1
          · rw [hallts t1 h1] at hf1; simp at hf1
        refine ⟨t, List.mem_cons_self t ts, hfiredt, ?_⟩
        rw [hfold, (ih _ hw1).1 hallts, hzip, psUpdate, if_pos (by rw [hfiredt])]

theorem dlookup_cons {κ β : Type} [DecidableEq κ] (k1 : κ) (v1 : β)
    (l : List (κ × β)) (k : κ) :
    dlookup ((k1, v1) :: l) k = if k1 = k then some v1 else dlookup l k := by
  unfold dlookup
  rw [List.find?_cons]
  by_cases h : k1 = k
  · simp [h]
  · simp [h]

theorem dlookup_map_snd {κ A B : Type} [DecidableEq κ] (G : A → B)
    (l : List (κ × A)) (k : κ) :
    dlookup (l.map (fun x => (x.1, G x.2))) k = (dlookup l k).map G := by
  induction l with
  | nil => rfl
  | cons x xs ih =>
    obtain ⟨k1, a⟩ := x
    simp only [List.map_cons]
    rw [dlookup_cons, dlookup_cons]
    by_cases h : k1 = k
    · simp [h]
    · simp [h, ih]

theorem mapM_keyed {κ V : Type} [DecidableEq κ] (g : κ → Option V) (ps : List κ)
    (r : List (κ × V)) (h : ps.mapM (fun p => (g p).map (fun v => (p, v))) = some r)
    (k : κ) (v : V) (hk : dlookup r k = some v) : g k = some v := by
  induction ps generalizing r with
  | nil =>
    simp only [List.mapM_nil, pure, Option.some.injEq] at h
    subst h
    simp [dlookup] at hk
  | cons p ps ih =>
    rw [List.mapM_cons] at h
    cases hp : g p with
    | none => rw [hp] at h; simp at h
    | some v0 =>
      rw [hp] at h
      cases hrest : ps.mapM (fun p => (g p).map (fun v => (p, v))) with
      | none => rw [hrest] at h; simp at h
      | some r1 =>
        rw [hrest] at h
        simp only [Option.map_some', Option.bind_eq_bind, Option.some_bind, pure,
          Option.some.injEq] at h
        subst h
        rw [dlookup_cons] at hk
        by_cases hpk : p = k
        · rw [if_pos hpk] at hk
          rw [← hpk, hp]
          exact hk
        · rw [if_neg hpk] at hk
          exact ih r1 hrest hk

theorem passfailEntries_lookup (sumwFail sumwPass : List (String × ℚ))
    (fE : List (String × ℚ)) (h : passfailEntries sumwFail sumwPass = some fE)
    (flavor : String) (r : ℚ) (hl : dlookup fE flavor = some r) :
    ∃ v w, dlookup sumwPass flavor = some v ∧ dlookup sumwFail flavor = some w ∧
      r = v / w := by
  induction sumwPass generalizing fE with
  | nil =>
    unfold passfailEntries at h
    simp only [List.mapM_nil, pure, Option.some.injEq] at h
    subst h
    simp [dlookup] at hl
  | cons fv rest ih =>
    unfold passfailEntries at h ih
    rw [List.mapM_cons] at h
    cases hw : dlookup sumwFail fv.1 with
    | none => rw [hw] at h; simp at h
    | some w0 =>
      rw [hw] at h
      cases hrest : rest.mapM
          (fun fv => (dlookup sumwFail fv.1).map (fun w => (fv.1, fv.2 / w))) with
      | none => rw [hrest] at h; simp at h
      | some r1 =>
        rw [hrest] at h
        simp only [Option.map_some', Option.bind_eq_bind, Option.some_bind, pure,
          Option.some.injEq] at h
        subst h
        obtain ⟨kf, vf⟩ := fv
        rw [dlookup_cons] at hl
        rw [dlookup_cons]
        by_cases hk : kf = flavor
        · rw [if_pos hk] at hl
          rw [if_pos hk]
          refine ⟨vf, w0, rfl, ?_, ?_⟩
          · rw [← hk]; exact hw
          · exact (Option.some.inj hl).symm
        · rw [if_neg hk] at hl
          rw [if_neg hk]
          exact ih r1 hrest hl

theorem dictInsert_of_notMem {κ β : Type} [DecidableEq κ] (l : List (κ × β))
    (k : κ) (v : β) (hk : k ∉ l.map Prod.fst) :
    dictInsert l k v = l ++ [(k, v)] := by
  induction l with
  | nil => rfl
  | cons x xs ih =>
    have hx : x.1 ≠ k := by
      intro he
      exact hk (by simp [he])
    have hk1 : k ∉ xs.map Prod.fst := by
      intro hm
      exact hk (by simp [hm])
    unfold dictInsert
    rw [if_neg hx]
    rw [ih hk1]
    simp

theorem foldl_dictInsert_eq_append {κ β : Type} [DecidableEq κ] :
    ∀ (l : List (κ × β)) (acc : List (κ × β)), (l.map Prod.fst).Nodup →
      (∀ k, k ∈ l.map Prod.fst → k ∉ acc.map Prod.fst) →
      l.foldl (fun d p => dictInsert d p.1 p.2) acc = acc ++ l := by
  intro l
  induction l with
  | nil => intro acc _ _; simp
  | cons x xs ih =>
    intro acc hnd hdisj
    have hnd1 : x.1 ∉ xs.map Prod.fst ∧ (xs.map Prod.fst).Nodup := by
      rw [List.map_cons] at hnd
      exact List.nodup_cons.mp hnd
    rw [List.foldl_cons, dictInsert_of_notMem acc x.1 x.2 (hdisj x.1 (by simp))]
    rw [ih (acc ++ [(x.1, x.2)]) hnd1.2 ?_]
    · simp
    · intro k hkxs
      have hk1 : k ∉ acc.map Prod.fst := hdisj k (by simp [hkxs])
      have hk2 : k ≠ x.1 := by
        intro he
        subst he
        exact hnd1.1 hkxs
      intro hm
      rcases (by simpa using hm : k ∈ acc.map Prod.fst ∨ k = x.1) with h1 | h1
      · exact hk1 h1
      · exact hk2 h1

theorem dictOfList_eq_self {κ β : Type} [DecidableEq κ] (l : List (κ × β))
    (h : (l.map Prod.fst).Nodup) : dictOfList l = l := by
  unfold dictOfList
  simpa using foldl_dictInsert_eq_append l [] h (by simp)

theorem dlookup_of_mem_nodup {κ β : Type} [DecidableEq κ] (l : List (κ × β))
    (k : κ) (v : β) (hnd : (l.map Prod.fst).Nodup) (hm : (k, v) ∈ l) :
    dlookup l k = some v := by
  induction l with
  | nil => simp at hm
  | cons x xs ih =>
    obtain ⟨k1, v1⟩ := x
    have hnd1 : k1 ∉ xs.map Prod.fst ∧ (xs.map Prod.fst).Nodup := by
      rw [List.map_cons] at hnd
      exact List.nodup_cons.mp hnd
    rw [dlookup_cons]
    rcases List.mem_cons.mp hm with he | hm1
    · obtain ⟨he1, he2⟩ := Prod.mk.inj he.symm
      rw [if_pos he1, he2]
    · have hk1 : k1 ≠ k := by
        intro he
        subst he
        have hfst : k1 ∈ xs.map Prod.fst := List.mem_map.mpr ⟨(k1, v), hm1, rfl⟩
        exact hnd1.1 hfst
      rw [if_neg hk1]
      exact ih hnd1.2 hm1

theorem getD_map_gen {α β : Type} (h : α → β) (l : List α) (i : ℕ)
    (hi : i < l.length) (a0 : α) (b0 : β) :
    (l.map h).getD i b0 = h (l.getD i a0) := by
  induction l generalizing i with
  | nil => simp at hi
  | cons x xs ih =>
    cases i with
    | zero => simp
    | succ i1 =>
      have hi1 : i1 < xs.length := by
        simp only [List.length_cons] at hi
        omega
      simpa using ih i1 hi1

theorem getD_map_zip {α β γ : Type} (f : α × β → γ) (l : List α) (d : List β)
    (hlen : d.length = l.length) (i : ℕ) (hi : i < l.length)
    (a0 : α) (b0 : β) (c0 : γ) :
    ((l.zip d).map f).getD i c0 = f (l.getD i a0, d.getD i b0) := by
  induction l generalizing d i with
  | nil => simp at hi
  | cons x xs ih =>
    cases d with
    | nil => simp at hlen
    | cons y ys =>
      cases i with
      | zero => simp
      | succ i1 =>
        have hlen1 : ys.length = xs.length := by
          simp only [List.length_cons] at hlen
          omega
        have hi1 : i1 < xs.length := by
          simp only [List.length_cons] at hi
          omega
        simpa using ih ys hlen1 i1 hi1

theorem if_gt_eq_max (a : ℚ) : (if a > 0 then a else 0) = max a 0 := by
  by_cases h : a > 0
  · rw [if_pos h, max_eq_left h.le]
  · push_neg at h
    rw [if_neg (by push_neg; exact h), max_eq_right h]

/-- C8: lepton_selection_noniso called on the Muon collection returns
exactly the muons passing |eta| < cuts.eta, pt > cuts.pt, the configured
id flag, and pfRelIso04_all strictly greater than the isolation cut
(the isolation requirement is inverted). -/
theorem C8_noniso_muon_selection (leptons : List Muon) (cuts : MuonCuts) (l : Muon) :
    l ∈ lepton_selection_noniso_muon leptons cuts ↔
      l ∈ leptons ∧ |l.eta| < cuts.eta ∧ l.pt > cuts.pt ∧
        l.muId = true ∧ l.pfRelIso04_all > cuts.iso := by
  unfold lepton_selection_noniso_muon
  rw [List.mem_filter]
  constructor
  · rintro ⟨hmem, hcond⟩
    simp only [Bool.and_eq_true, decide_eq_true_eq] at hcond
    exact ⟨hmem, hcond.1.1.1, hcond.1.1.2, hcond.2, hcond.1.2⟩
  · rintro ⟨hmem, h1, h2, h3, h4⟩
    refine ⟨hmem, ?_⟩
    simp only [Bool.and_eq_true, decide_eq_true_eq]
    exact ⟨⟨⟨h1, h2⟩, h4⟩, h3⟩

/-- C10: for every event and every selected fat jet in it, the tau21
field attached to the FatJetGood collection equals tau2 / tau1 of that
jet (and the attachment preserves the collection's shape). -/
theorem C10_tau21_is_tau2_over_tau1 (fatJetGood : List (List FatJet))
    (i j : ℕ) (hi : i < (attach_tau21 fatJetGood).length)
    (hj : j < ((attach_tau21 fatJetGood).get ⟨i, hi⟩).length)
    (hi0 : i < fatJetGood.length) (hj0 : j < (fatJetGood.get ⟨i, hi0⟩).length) :
    (((attach_tau21 fatJetGood).get ⟨i, hi⟩).get ⟨j, hj⟩).tau21 =
      ((fatJetGood.get ⟨i, hi0⟩).get ⟨j, hj0⟩).tau2 /
        ((fatJetGood.get ⟨i, hi0⟩).get ⟨j, hj0⟩).tau1 := by
  simp [attach_tau21, List.get_eq_getElem]

/-- C7: in the output of run_deltar_matching (obj1 of size M, obj2 of
size G, radius r) the obj2 rows are indexed by obj1 (first conjunct);
every retained pair carries the true delta R of the pair, has delta R
strictly below r, and its obj1 element is at minimal delta R to the
obj2 element (second conjunct); and every obj2 element is assigned to
at most one obj1 element (third conjunct). -/
theorem C7_deltar_matching_unique_min {α β : Type} (dR : α → β → ℚ) (obj1 : List α)
    (obj2 : List β) (radius : ℚ) :
    ((run_deltar_matching dR obj1 obj2 radius).length = obj1.length)
    ∧ (∀ (m : Fin obj1.length) (b : β) (d : ℚ),
        (b, d) ∈ (run_deltar_matching dR obj1 obj2 radius).getD m.1 [] →
          d = dR (obj1.get m) b ∧ d < radius ∧
            ∀ (k : Fin obj1.length), dR (obj1.get m) b ≤ dR (obj1.get k) b)
    ∧ (∀ (m1 m2 : Fin obj1.length) (b : β) (d1 d2 : ℚ),
        (b, d1) ∈ (run_deltar_matching dR obj1 obj2 radius).getD m1.1 [] →
        (b, d2) ∈ (run_deltar_matching dR obj1 obj2 radius).getD m2.1 [] →
          m1 = m2) := by
  refine ⟨by simp [run_deltar_matching], ?_, ?_⟩
  · intro m b d hmem
    rcases (mem_run_deltar_matching dR obj1 obj2 radius m b d).mp hmem with
      ⟨_, hkeep, hd⟩
    unfold keepPair at hkeep
    simp only [Bool.and_eq_true, beq_iff_eq, decide_eq_true_eq] at hkeep
    refine ⟨hd, hd ▸ hkeep.2, ?_⟩
    intro k
    have hmin := argminIdx_min hkeep.1 k.1 (by simp only [List.length_map]; exact k.2)
    rwa [getD_map_eq obj1 (fun a1 => dR a1 b) m.1 m.2,
      getD_map_eq obj1 (fun a1 => dR a1 b) k.1 k.2] at hmin
  · intro m1 m2 b d1 d2 h1 h2
    rcases (mem_run_deltar_matching dR obj1 obj2 radius m1 b d1).mp h1 with
      ⟨_, hkeep1, _⟩
    rcases (mem_run_deltar_matching dR obj1 obj2 radius m2 b d2).mp h2 with
      ⟨_, hkeep2, _⟩
    unfold keepPair at hkeep1 hkeep2
    simp only [Bool.and_eq_true, beq_iff_eq, decide_eq_true_eq] at hkeep1 hkeep2
    have : some m1.1 = some m2.1 := hkeep1.1.symm.trans hkeep2.1
    exact Fin.ext (Option.some.injEq _ _ ▸ this)

/-- Witness for C7: obj1 has two elements, obj2 one element at
distances 7 and 4; the pair with distance 4 is retained in the row of
the second obj1 element and is below the radius 5. -/
theorem C7_deltar_matching_unique_min_witness :
    (4 : ℚ) = dRex (([1, 2] : List ℕ).get ⟨1, by decide⟩) 3 ∧ (4 : ℚ) < 5 ∧
      ∀ (k : Fin ([1, 2] : List ℕ).length),
        dRex (([1, 2] : List ℕ).get ⟨1, by decide⟩) 3 ≤ dRex (([1, 2] : List ℕ).get k) 3 :=
  (C7_deltar_matching_unique_min dRex [1, 2] [3] 5).2.1 ⟨1, by decide⟩ 3 4 (by decide)

/-- C9: when get_sv1mass succeeds with log=True, then for every event
whose matched-SV list for the leading fat jet is empty it returns
sv1mass = 0 and logsv1mass = -5, and for every event whose sv1mass is
not 0 it returns logsv1mass = log(sv1mass). -/
theorem C9_sv1mass_empty_default_and_log (logFn : ℚ → ℚ) (sv : List (List (List ℚ)))
    (s ls : List ℚ) (h : get_sv1mass logFn sv true = some (s, some ls))
    (i : ℕ) (hi : i < sv.length) :
    (((sv.get ⟨i, hi⟩).head? = some []) → s.getD i 0 = 0 ∧ ls.getD i 0 = -5)
    ∧ (s.getD i 0 ≠ 0 → ls.getD i 0 = logFn (s.getD i 0)) := by
  unfold get_sv1mass at h
  cases hm : sv.mapM sv1massOfEvent with
  | none => rw [hm] at h; simp at h
  | some firsts =>
    rw [hm] at h
    simp only [Option.bind_eq_bind, Option.some_bind, if_pos, pure,
      Option.some.injEq, Prod.mk.injEq] at h
    obtain ⟨hs, hls⟩ := h
    have hls2 : ls = s.map (fun m => if m = 0 then -5 else logFn m) := by
      rw [← hls, hs]
    rcases mapM_option_eq sv1massOfEvent sv firsts none hm with ⟨hflen, hfget⟩
    have hif : i < firsts.length := by rw [hflen]; exact hi
    have hslen : s.length = firsts.length := by rw [← hs]; simp
    have his : i < s.length := by rw [hslen]; exact hif
    have hsval : s.getD i 0 = (firsts.get ⟨i, hif⟩).getD 0 := by
      rw [← hs, getD_map_eq firsts (fun o => o.getD 0) i hif]
    have hlsval : ls.getD i 0 =
        (fun m => if m = 0 then -5 else logFn m) (s.get ⟨i, his⟩) := by
      rw [hls2, getD_map_eq s (fun m => if m = 0 then -5 else logFn m) i his]
    have hsgetD : s.getD i 0 = s.get ⟨i, his⟩ := getD_eq_get s i 0 his
    constructor
    · intro hempty
      have hev := hfget i hi
      have : sv1massOfEvent (sv.get ⟨i, hi⟩) = some none := by
        unfold sv1massOfEvent
        rw [List.head?_map, hempty]
        rfl
      rw [this] at hev
      have hfirst : firsts.getD i none = none := by
        exact (Option.some.injEq _ _).mp hev.symm
      rw [getD_eq_get firsts i none hif] at hfirst
      have hs0 : s.getD i 0 = 0 := by rw [hsval, hfirst]; rfl
      refine ⟨hs0, ?_⟩
      rw [hlsval]
      simp only
      rw [← hsgetD, hs0]
      simp
    · intro hne
      rw [hlsval]
      simp only
      rw [← hsgetD]
      rw [if_neg hne]

/-- Witness for C9 on two concrete events: the first event's leading
fat jet has no matched SV (sv1mass 0, logsv1mass -5), the second has
sv1mass 2 and logsv1mass given by the log primitive. -/
theorem C9_sv1mass_empty_default_and_log_witness :
    ((([0, 2] : List ℚ).getD 0 0 = 0 ∧ ([-5, 9] : List ℚ).getD 0 0 = -5)
      ∧ ([-5, 9] : List ℚ).getD 1 0 = (fun _ => (9 : ℚ)) (([0, 2] : List ℚ).getD 1 0)) :=
  ⟨(C9_sv1mass_empty_default_and_log (fun _ => 9) [[[]], [[2, 3]]] [0, 2] [-5, 9]
      (by rfl) 0 (by decide)).1 (by rfl),
   (C9_sv1mass_empty_default_and_log (fun _ => 9) [[[]], [[2, 3]]] [0, 2] [-5, 9]
      (by rfl) 1 (by decide)).2 (by norm_num)⟩

/-- Witness for C10 at a concrete two-jet event. -/
theorem C10_tau21_is_tau2_over_tau1_witness :
    (((attach_tau21 [[⟨300, 2, 1⟩, ⟨400, 4, 1⟩]]).get ⟨0, by decide⟩).get
        ⟨1, by decide⟩).tau21 = (1 : ℚ) / 4 := by
  rw [C10_tau21_is_tau2_over_tau1 [[⟨300, 2, 1⟩, ⟨400, 4, 1⟩]] 0 1 (by decide) (by decide)
    (by decide) (by decide)]
  norm_num [List.get_eq_getElem]

/-- C1: every pass/fail ratio computed by get_passfail_ratio equals
the summed MC shape-histogram yields of that flavor in the
'<parent>-pass' category divided by the summed yields of that flavor in
the '<parent>-fail' category, at the same tau21 cut.  The flavor is
identified by the process name with its "_nominal" suffix stripped;
within each datacard the stripped process names are assumed unique
(they are keys of a Python dict in the source). -/
theorem C1_passfail_ratio_eq_yield_ratio
    (datacards : CatDatacards) (ratio : List (String × List (ℚ × List (String × ℚ))))
    (parent : String) (tau : ℚ) (flavor : String) (r : ℚ)
    (tEntries : List (ℚ × List (String × ℚ))) (fEntries : List (String × ℚ))
    (tmPass tmFail : List (ℚ × Datacard)) (dPass dFail : Datacard)
    (pP pF : String) (hP hF : Hist)
    (hr : get_passfail_ratio datacards = some ratio)
    (hpar : dlookup ratio parent = some tEntries)
    (htau : dlookup tEntries tau = some fEntries)
    (hfl : dlookup fEntries flavor = some r)
    (hdp : dlookup datacards (parent ++ "-pass") = some tmPass)
    (hdf : dlookup datacards (parent ++ "-fail") = some tmFail)
    (htp : dlookup tmPass tau = some dPass)
    (htf : dlookup tmFail tau = some dFail)
    (hndP : (dPass.map (fun ph => stripNominal ph.1)).Nodup)
    (hndF : (dFail.map (fun ph => stripNominal ph.1)).Nodup)
    (hmP : (pP, hP) ∈ dPass) (hsP : stripNominal pP = flavor)
    (hmF : (pF, hF) ∈ dFail) (hsF : stripNominal pF = flavor) :
    r = hP.sum / hF.sum := by
  unfold get_passfail_ratio at hr
  have hpp : passfailForParent datacards parent = some tEntries :=
    mapM_keyed (passfailForParent datacards) (parentCategories datacards) ratio hr
      parent tEntries hpar
  unfold passfailForParent at hpp
  have hG : ∀ (c : String) (tm : List (ℚ × Datacard)), dlookup datacards c = some tm →
      dlookup (sumw_percat datacards) c =
        some (tm.map (fun td => (td.1, sumwOfDatacard td.2))) := by
    intro c tm hc
    unfold sumw_percat
    rw [dlookup_map_snd (fun tm => tm.map (fun td => (td.1, sumwOfDatacard td.2)))
      datacards c, hc]
    rfl
  rw [hdp, hG _ _ hdp, hG _ _ hdf] at hpp
  simp only [Option.bind_eq_bind, Option.some_bind] at hpp
  have hpt : passfailForTau (tmPass.map (fun td => (td.1, sumwOfDatacard td.2)))
      (tmFail.map (fun td => (td.1, sumwOfDatacard td.2))) tau = some fEntries :=
    mapM_keyed (passfailForTau (tmPass.map (fun td => (td.1, sumwOfDatacard td.2)))
      (tmFail.map (fun td => (td.1, sumwOfDatacard td.2))))
      (tmPass.map Prod.fst) tEntries hpp tau fEntries htau
  unfold passfailForTau at hpt
  rw [dlookup_map_snd sumwOfDatacard tmPass tau, htp,
    dlookup_map_snd sumwOfDatacard tmFail tau, htf] at hpt
  simp only [Option.map_some', Option.bind_eq_bind, Option.some_bind] at hpt
  rcases passfailEntries_lookup (sumwOfDatacard dFail) (sumwOfDatacard dPass)
    fEntries hpt flavor r hfl with ⟨v, w, hv, hw, hr2⟩
  have hkeysP : ((dPass.map (fun ph => (stripNominal ph.1, ph.2.sum))).map Prod.fst).Nodup := by
    rw [List.map_map]
    exact hndP
  have hkeysF : ((dFail.map (fun ph => (stripNominal ph.1, ph.2.sum))).map Prod.fst).Nodup := by
    rw [List.map_map]
    exact hndF
  have hvP : dlookup (sumwOfDatacard dPass) flavor = some hP.sum := by
    unfold sumwOfDatacard
    rw [dictOfList_eq_self _ hkeysP]
    exact dlookup_of_mem_nodup _ flavor hP.sum hkeysP
      (List.mem_map.mpr ⟨(pP, hP), hmP, by rw [hsP]⟩)
  have hwF : dlookup (sumwOfDatacard dFail) flavor = some hF.sum := by
    unfold sumwOfDatacard
    rw [dictOfList_eq_self _ hkeysF]
    exact dlookup_of_mem_nodup _ flavor hF.sum hkeysF
      (List.mem_map.mpr ⟨(pF, hF), hmF, by rw [hsF]⟩)
  have hveq : v = hP.sum := Option.some.inj (hv.symm.trans hvP)
  have hweq : w = hF.sum := Option.some.inj (hw.symm.trans hwF)
  rw [hr2, hveq, hweq]

/-- Witness for C1: one parent category with pass and fail datacards
holding a single flavor b with yields summing to 10 and 5; the
computed ratio 2 equals 10/5. -/
theorem C1_passfail_ratio_eq_yield_ratio_witness :
    (2 : ℚ) = ([6, 4] : List ℚ).sum / ([4, 1] : List ℚ).sum :=
  C1_passfail_ratio_eq_yield_ratio
    [("p-pass", [(1, [("b_nominal", [6, 4])])]),
     ("p-fail", [(1, [("b_nominal", [4, 1])])])]
    [("p", [(1, [("b", 2)])])] "p" 1 "b" 2
    [(1, [("b", 2)])] [("b", 2)]
    [(1, [("b_nominal", [6, 4])])] [(1, [("b_nominal", [4, 1])])]
    [("b_nominal", [6, 4])] [("b_nominal", [4, 1])]
    "b_nominal" "b_nominal" [6, 4] [4, 1]
    (by with_unfolding_all rfl) (by with_unfolding_all rfl)
    (by with_unfolding_all rfl) (by with_unfolding_all rfl)
    (by with_unfolding_all rfl) (by with_unfolding_all rfl)
    (by with_unfolding_all rfl) (by with_unfolding_all rfl)
    (by decide) (by decide)
    (by decide) (by decide) (by decide) (by decide)

/-- C3 fails on the code: in the datacard dump loop of
create_datacards.main a failing dump is caught and recorded and the
following items are still processed.  Concretely, with two items whose
first dump fails, the second item still appears among the successes. -/
theorem C3_counterexample_catch_and_continue : ¬ claimC3 := by
  intro h
  have h2 := h ℕ (fun n => if n = 0 then .error "boom" else .ok ()) [0, 1] 0 1
    (by decide) (by decide) (by decide) ⟨"boom", by rfl⟩
  exact h2.1 (by decide)

/-- C3 amended: the datacard dump loop of create_datacards.main
catches a failing dump, records the item together with the error
message in failed_categories, and continues: every item is processed,
the successes are exactly the items whose dump succeeds and the
recorded failures exactly the items whose dump fails. -/
theorem C3_amended_dump_loop_catches_and_continues {ι : Type}
    (dump : ι → Except String Unit) (items : List ι) :
    (dump_loop dump items).1 =
        items.filter (fun it => match dump it with | .ok _ => true | .error _ => false)
    ∧ (dump_loop dump items).2 =
        items.filterMap (fun it => match dump it with
          | .ok _ => none
          | .error e => some (it, e)) := by
  have haux : ∀ (l : List ι) (acc : List ι × List (ι × String)),
      l.foldl (fun acc it => match dump it with
        | .ok _ => (acc.1 ++ [it], acc.2)
        | .error e => (acc.1, acc.2 ++ [(it, e)])) acc =
      (acc.1 ++ l.filter (fun it => match dump it with | .ok _ => true | .error _ => false),
       acc.2 ++ l.filterMap (fun it => match dump it with
         | .ok _ => none
         | .error e => some (it, e))) := by
    intro l
    induction l with
    | nil => intro acc; simp
    | cons x xs ih =>
      intro acc
      rw [List.foldl_cons]
      cases hx : dump x with
      | ok u =>
        simp only [hx]
        rw [ih, List.filter_cons, List.filterMap_cons]
        simp [hx]
      | error e =>
        simp only [hx]
        rw [ih, List.filter_cons, List.filterMap_cons]
        simp [hx]
  unfold dump_loop
  rw [haux]
  simp

/-- C4 fails on the code: run_combine_cards.py invokes the external
fitting tool (via combine_cards.sh) through subprocess.run with
check=True, so a non-zero exit code raises CalledProcessError instead
of being captured, and nothing is recorded in a JSON status file. -/
theorem C4_counterexample_check_true_raises : ¬ claimC4 := by
  intro h
  rcases h 1 with ⟨files, hok, _⟩
  simp [run_combine_cards_invoke, subprocess_run_check, Except.map] at hok

/-- C4 amended: fit_diagnostics.py runs combine without check and
unconditionally records category, working directory, command and
return code in fit_status.json; but run_combine_cards.py runs its
combine invocation with check=True, so there a non-zero exit code
raises and no status file is written. -/
theorem C4_amended_capture_only_in_fit_diagnostics :
    (∀ (category cwd : String) (rc : Int),
      fit_diagnostics true category cwd rc =
        .ok [("fit_status.json",
          { category := category, cwd := cwd,
            command := String.intercalate " " (combine_fitdiag_cmd ("." ++ category)),
            returncode := rc })])
    ∧ (∀ rc : Int, rc ≠ 0 →
        run_combine_cards_invoke rc =
          .error ("Command returned non-zero exit status " ++ toString rc)) := by
  constructor
  · intro category cwd rc
    rfl
  · intro rc hrc
    simp [run_combine_cards_invoke, subprocess_run_check, hrc, Except.map]

/-- Witness for the amended C4: exit code 1 of the combine_cards
invocation raises. -/
theorem C4_amended_capture_only_in_fit_diagnostics_witness :
    run_combine_cards_invoke 1 =
      .error ("Command returned non-zero exit status " ++ toString (1 : Int)) :=
  C4_amended_capture_only_in_fit_diagnostics.2 1 (by decide)

/-- C5: missing required input files raise exceptions carrying
descriptive messages: fit_diagnostics raises when workspace.root is
absent, extract_fit_results raises unless exactly one fitDiagnostics
ROOT file is present, and sf_trigger_prescale raises when the prescale
JSON file of one of the four BTagMu triggers does not exist for the
year. -/
theorem C5_missing_inputs_raise :
    (∀ (category cwd : String) (rc : Int),
      fit_diagnostics false category cwd rc =
        .error "workspace.root not found in current directory")
    ∧ (∀ (fitFiles : List String) (fitS : Bool), fitFiles.length ≠ 1 →
        extract_fit_results fitFiles fitS =
          .error ("Found " ++ toString fitFiles.length ++ " fitDiagnostics files: " ++
            String.intercalate ", " fitFiles))
    ∧ (∀ (year : String) (fileExists : String → Bool)
        (pseval : String → ℕ → String → ℚ → ℚ) (events : List PSEvent),
        (∃ t, t ∈ btagmu_triggers ∧ fileExists t = false) →
        ∃ t, t ∈ btagmu_triggers ∧ fileExists t = false ∧
          sf_trigger_prescale year fileExists pseval events false =
            .error ("Prescale weights not available for " ++ t ++ " in " ++ year ++
              ". Please run `scripts/dump_prescale.py`.")) := by
  refine ⟨fun category cwd rc => rfl, ?_, ?_⟩
  · intro fitFiles fitS hne
    rw [extract_fit_results, if_pos hne]
  · intro year fileExists pseval events hmiss
    rcases foldlM_psStep_error year fileExists pseval events btagmu_triggers hmiss
      (events.map (fun _ => (1 : ℚ))) with ⟨t, ht, hf, heq⟩
    refine ⟨t, ht, hf, ?_⟩
    rw [sf_trigger_prescale, if_neg (by simp)]
    exact heq

/-- Witness for C5 at concrete inputs: no workspace.root, an empty
fitDiagnostics glob, and a missing prescale file for the first BTagMu
trigger. -/
theorem C5_missing_inputs_raise_witness :
    fit_diagnostics false "cat" "cwd" 0 =
        .error "workspace.root not found in current directory"
    ∧ extract_fit_results [] false =
        .error ("Found " ++ toString (([] : List String).length) ++
          " fitDiagnostics files: " ++ String.intercalate ", " [])
    ∧ ∃ t, t ∈ btagmu_triggers ∧ (fun _ : String => false) t = false ∧
        sf_trigger_prescale "2022" (fun _ => false) (fun _ _ _ _ => 1) [] false =
          .error ("Prescale weights not available for " ++ t ++ " in " ++ "2022" ++
            ". Please run `scripts/dump_prescale.py`.") :=
  ⟨C5_missing_inputs_raise.1 "cat" "cwd" 0,
   C5_missing_inputs_raise.2.1 [] false (by decide),
   C5_missing_inputs_raise.2.2 "2022" (fun _ => false) (fun _ _ _ _ => 1) []
     ⟨"BTagMu_AK8DiJet170_Mu5", by decide, rfl⟩⟩

/-- C6: sf_trigger_prescale raises for every call with isMC=True; for
data (with all four prescale files available), an event in which none
of the four BTagMu triggers fired gets weight exactly 1, and an event
in which some of them fired gets the evaluated prescale of one of the
fired triggers at the event's run and luminosity block. -/
theorem C6_prescale_mc_raises_and_data_weights (year : String)
    (fileExists : String → Bool) (pseval : String → ℕ → String → ℚ → ℚ)
    (events : List PSEvent) (ws : List ℚ)
    (hex : ∀ t, t ∈ btagmu_triggers → fileExists t = true)
    (h : sf_trigger_prescale year fileExists pseval events false = .ok ws)
    (i : ℕ) (hi : i < events.length) :
    (sf_trigger_prescale year fileExists pseval events true =
      .error "Prescale weights are applicable only to data.")
    ∧ ((∀ t, t ∈ btagmu_triggers → (events.get ⟨i, hi⟩).hlt t = false) →
        ws.getD i 0 = 1)
    ∧ ((∃ t, t ∈ btagmu_triggers ∧ (events.get ⟨i, hi⟩).hlt t = true) →
        ∃ t, t ∈ btagmu_triggers ∧ (events.get ⟨i, hi⟩).hlt t = true ∧
          ws.getD i 0 = pseval t (events.get ⟨i, hi⟩).run ("HLT_" ++ t)
            ((events.get ⟨i, hi⟩).luminosityBlock : ℚ)) := by
  have hw0 : (events.map (fun _ => (1 : ℚ))).length = events.length := by simp
  have hfold := foldlM_psStep_ok year fileExists pseval events btagmu_triggers hex
    (events.map (fun _ => (1 : ℚ)))
  rw [sf_trigger_prescale, if_neg (by simp), hfold] at h
  have hws : ws = psFold pseval events btagmu_triggers (events.map (fun _ => (1 : ℚ))) :=
    (Except.ok.inj h).symm
  have hchar := psFold_getD pseval events i hi btagmu_triggers
    (events.map (fun _ => (1 : ℚ))) hw0
  refine ⟨rfl, ?_, ?_⟩
  · intro hall
    rw [hws, hchar.1 hall, getD_map_eq events (fun _ => (1 : ℚ)) i hi]
  · intro hsome
    rcases hchar.2 hsome with ⟨t, ht, hfired, heq⟩
    refine ⟨t, ht, hfired, ?_⟩
    rw [hws]
    exact heq

/-- Witness for C6 on two concrete data events: the first fires no
BTagMu trigger and gets weight 1; the second fires
BTagMu_AK8Jet300_Mu5 and gets the evaluated prescale (37 under the
constant evaluator). -/
theorem C6_prescale_mc_raises_and_data_weights_witness :
    (sf_trigger_prescale "2022" (fun _ => true) (fun _ _ _ _ => 37) [psEv0, psEv1] true =
      .error "Prescale weights are applicable only to data.")
    ∧ ([1, 37] : List ℚ).getD 0 0 = 1
    ∧ ∃ t, t ∈ btagmu_triggers ∧ psEv1.hlt t = true ∧
        ([1, 37] : List ℚ).getD 1 0 = 37 := by
  have happ0 := C6_prescale_mc_raises_and_data_weights "2022" (fun _ => true)
    (fun _ _ _ _ => 37) [psEv0, psEv1] [1, 37] (fun t _ => rfl) (by rfl) 0 (by decide)
  have happ1 := C6_prescale_mc_raises_and_data_weights "2022" (fun _ => true)
    (fun _ _ _ _ => 37) [psEv0, psEv1] [1, 37] (fun t _ => rfl) (by rfl) 1 (by decide)
  exact ⟨happ0.1, happ0.2.1 (fun t _ => rfl),
    happ1.2.2 ⟨"BTagMu_AK8Jet300_Mu5", by decide, by decide⟩⟩

/-- C2 fails on the code: the delta-R part of the claimed matching
requirement is not applied by jet_correction_correctionlib (dr_min is
computed but unused; the NanoAOD index association plus the 3-sigma pt
window alone decide the smearing branch).  Concretely, a jet whose
associated gen jet lies at delta R = 2 (far outside the 0.4 cone) but
inside the pt window is smeared with the deterministic factor 3/2,
while the claim prescribes the stochastic factor (1 with a zero
draw). -/
theorem C2_counterexample_no_deltaR_requirement : ¬ claimC2 := by
  intro h
  have h2 := h (fun _ _ _ _ => 1) (fun _ => 2) (fun _ _ _ => 1) (fun _ => 0)
    (2 / 5) 0 [genEx] [0] [jetA] 0 (by decide) (by decide)
    (by intro j hj; rw [List.mem_singleton.mp hj]; decide)
  have hL : ((jet_correction_correctionlib (fun _ _ _ _ => 1) (fun _ => 2)
      (fun _ _ _ => 1) (fun _ => 0) 0 [genEx] [0] [jetA] true).getD 0 jet0).pt =
      (150 : ℚ) := by
    with_unfolding_all rfl
  have hR : (correctJet (fun _ _ _ _ => 1) 0 (([jetA] : List JetIn).getD 0 jet0)).pt *
      claimSmearFactor (fun _ => 2) (fun _ _ _ => 1) (fun _ => 0) (2 / 5) 0 [genEx]
        (correctJet (fun _ _ _ _ => 1) 0 (([jetA] : List JetIn).getD 0 jet0))
        (([0] : List ℚ).getD 0 0) = (100 : ℚ) := by
    with_unfolding_all rfl
  rw [hL, hR] at h2
  exact absurd h2 (by norm_num)

/-- C2 amended: the corrected pt and mass are (1 - rawFactor) * pt (or
mass) times the evaluated compound L1L2L3Res factor; with a JERversion
each jet is further multiplied by the deterministic scaling factor
1 + (SF - 1)(pt - pt_gen)/pt when its stored NanoAOD gen-jet index is
valid and the pt difference is within 3 * ptResolution * pt (no
delta-R requirement is applied), and by the stochastic factor
1 + g * sqrt(max(SF^2 - 1, 0)) otherwise. -/
theorem C2_amended_jes_and_jer_smearing (corrEval : ℚ → ℚ → ℚ → ℚ → ℚ)
    (sfEval : ℚ → ℚ) (resEval : ℚ → ℚ → ℚ → ℚ) (sqrtFn : ℚ → ℚ) (rho : ℚ)
    (gens : List GenJet) (draws : List ℚ) (jets : List JetIn) (i : ℕ)
    (jin jc out : JetIn) (SF res g : ℚ)
    (hi : i < jets.length) (hlen : draws.length = jets.length)
    (hjin : jin = jets.getD i jet0)
    (hjc : jc = correctJet corrEval rho jin)
    (hout : out = (jet_correction_correctionlib corrEval sfEval resEval sqrtFn rho
      gens draws jets true).getD i jet0)
    (hSF : SF = sfEval jc.eta) (hres : res = resEval jc.eta jc.pt rho)
    (hg : g = draws.getD i 0) :
    ((jet_correction_correctionlib corrEval sfEval resEval sqrtFn rho gens draws
        jets false).getD i jet0 = jc)
    ∧ jc.pt = (1 - jin.rawFactor) * jin.pt *
        corrEval jin.area jin.eta ((1 - jin.rawFactor) * jin.pt) rho
    ∧ jc.mass = (1 - jin.rawFactor) * jin.mass *
        corrEval jin.area jin.eta ((1 - jin.rawFactor) * jin.pt) rho
    ∧ (∀ gj, matchedGen gens jc = some gj → |jc.pt - gj.pt| < 3 * res * jc.pt →
        out.pt = jc.pt * (1 + (SF - 1) * (jc.pt - gj.pt) / jc.pt) ∧
        out.mass = jc.mass * (1 + (SF - 1) * (jc.pt - gj.pt) / jc.pt))
    ∧ ((matchedGen gens jc).bind (fun gj =>
          if |jc.pt - gj.pt| < 3 * res * jc.pt then some gj else none) = none →
        out.pt = jc.pt * (1 + g * sqrtFn (max (SF ^ 2 - 1) 0)) ∧
        out.mass = jc.mass * (1 + g * sqrtFn (max (SF ^ 2 - 1) 0))) := by
  subst hjin hjc hSF hres hg hout
  have hcorr : (jets.map (correctJet corrEval rho)).getD i jet0 =
      correctJet corrEval rho (jets.getD i jet0) :=
    getD_map_gen (correctJet corrEval rho) jets i hi jet0 jet0
  have houtv : (jet_correction_correctionlib corrEval sfEval resEval sqrtFn rho
      gens draws jets true).getD i jet0 =
      (fun jg : JetIn × ℚ =>
        { jg.1 with
          pt := jg.1.pt * jerSmearFactor sfEval resEval sqrtFn rho gens jg.1 jg.2,
          mass := jg.1.mass * jerSmearFactor sfEval resEval sqrtFn rho gens jg.1 jg.2 })
        ((jets.map (correctJet corrEval rho)).getD i jet0, draws.getD i 0) := by
    exact getD_map_zip _ (jets.map (correctJet corrEval rho)) draws
      (by simp [hlen]) i (by simpa using hi) jet0 0 jet0
  rw [hcorr] at houtv
  refine ⟨hcorr, rfl, rfl, ?_, ?_⟩
  · intro gj hmg hdpt
    have hs : jerSmearFactor sfEval resEval sqrtFn rho gens
        (correctJet corrEval rho (jets.getD i jet0)) (draws.getD i 0) =
        1 + (sfEval (correctJet corrEval rho (jets.getD i jet0)).eta - 1) *
          ((correctJet corrEval rho (jets.getD i jet0)).pt - gj.pt) /
          (correctJet corrEval rho (jets.getD i jet0)).pt := by
      unfold jerSmearFactor
      rw [hmg, Option.some_bind, if_pos hdpt]
    rw [houtv]
    constructor
    · show (correctJet corrEval rho (jets.getD i jet0)).pt *
        jerSmearFactor sfEval resEval sqrtFn rho gens
          (correctJet corrEval rho (jets.getD i jet0)) (draws.getD i 0) = _
      rw [hs]
    · show (correctJet corrEval rho (jets.getD i jet0)).mass *
        jerSmearFactor sfEval resEval sqrtFn rho gens
          (correctJet corrEval rho (jets.getD i jet0)) (draws.getD i 0) = _
      rw [hs]
  · intro hnone
    have hs : jerSmearFactor sfEval resEval sqrtFn rho gens
        (correctJet corrEval rho (jets.getD i jet0)) (draws.getD i 0) =
        1 + draws.getD i 0 * sqrtFn
          (max (sfEval (correctJet corrEval rho (jets.getD i jet0)).eta ^ 2 - 1) 0) := by
      unfold jerSmearFactor
      rw [hnone, if_gt_eq_max]
    rw [houtv]
    constructor
    · show (correctJet corrEval rho (jets.getD i jet0)).pt *
        jerSmearFactor sfEval resEval sqrtFn rho gens
          (correctJet corrEval rho (jets.getD i jet0)) (draws.getD i 0) = _
      rw [hs]
    · show (correctJet corrEval rho (jets.getD i jet0)).mass *
        jerSmearFactor sfEval resEval sqrtFn rho gens
          (correctJet corrEval rho (jets.getD i jet0)) (draws.getD i 0) = _
      rw [hs]

/-- Witness for the amended C2 on one event with two jets: jetA is
index-matched to genEx within the pt window (deterministic smearing:
pt 100 -> 150), jetB has no gen index (stochastic smearing with draw 3
and the identity standing in for sqrt: pt 100 -> 1000). -/
theorem C2_amended_jes_and_jer_smearing_witness :
    (((jet_correction_correctionlib (fun _ _ _ _ => 1) (fun _ => 2)
        (fun _ _ _ => 1) (fun q => q) 0 [genEx] [0, 3] [jetA, jetB] true).getD
          0 jet0).pt =
      (correctJet (fun _ _ _ _ => 1) 0 jetA).pt *
        (1 + ((2 : ℚ) - 1) * ((correctJet (fun _ _ _ _ => 1) 0 jetA).pt - genEx.pt) /
          (correctJet (fun _ _ _ _ => 1) 0 jetA).pt))
    ∧ (((jet_correction_correctionlib (fun _ _ _ _ => 1) (fun _ => 2)
        (fun _ _ _ => 1) (fun q => q) 0 [genEx] [0, 3] [jetA, jetB] true).getD
          1 jet0).pt =
      (correctJet (fun _ _ _ _ => 1) 0 jetB).pt *
        (1 + 3 * ((fun q => q) (max ((2 : ℚ) ^ 2 - 1) 0)))) := by
  have h0 := C2_amended_jes_and_jer_smearing (fun _ _ _ _ => 1) (fun _ => 2)
    (fun _ _ _ => 1) (fun q => q) 0 [genEx] [0, 3] [jetA, jetB] 0
    jetA (correctJet (fun _ _ _ _ => 1) 0 jetA)
    ((jet_correction_correctionlib (fun _ _ _ _ => 1) (fun _ => 2)
      (fun _ _ _ => 1) (fun q => q) 0 [genEx] [0, 3] [jetA, jetB] true).getD 0 jet0)
    2 1 0 (by decide) (by decide) (by with_unfolding_all rfl) rfl rfl
    (by with_unfolding_all rfl) (by with_unfolding_all rfl) (by with_unfolding_all rfl)
  have h1 := C2_amended_jes_and_jer_smearing (fun _ _ _ _ => 1) (fun _ => 2)
    (fun _ _ _ => 1) (fun q => q) 0 [genEx] [0, 3] [jetA, jetB] 1
    jetB (correctJet (fun _ _ _ _ => 1) 0 jetB)
    ((jet_correction_correctionlib (fun _ _ _ _ => 1) (fun _ => 2)
      (fun _ _ _ => 1) (fun q => q) 0 [genEx] [0, 3] [jetA, jetB] true).getD 1 jet0)
    2 1 3 (by decide) (by decide) (by with_unfolding_all rfl) rfl rfl
    (by with_unfolding_all rfl) (by with_unfolding_all rfl) (by with_unfolding_all rfl)
  refine ⟨(h0.2.2.2.1 genEx (by with_unfolding_all rfl)
    (by with_unfolding_all decide)).1, ?_⟩
  exact (h1.2.2.2.2 (by with_unfolding_all rfl)).1

end MutagCalib
